import Mathlib

/-!
Verification of the CNIC capture form (repository Zeshan124/cnic_capturing).

The development shallowly embeds the two JavaScript source files
(src/components/ImageUploader.jsx and src/unnamed/part_000) as executable Lean
definitions: JS numbers appearing in the crop geometry are modelled as exact
rationals, JS `File` objects as records of name, MIME type and bytes, React
state updates as explicit state-passing functions, and asynchronous callbacks
(FileReader loads, canvas.toBlob, fetch) as explicit queues or outcome
parameters, following the single-threaded event-loop model of the code.
-/

namespace Cnic

/-- Model of a JS `File` object: name, MIME type and content bytes. -/
structure JsFile where
  name : String
  type : String
  bytes : List Nat
deriving DecidableEq

/-- JS `File.size`: the byte length of the payload. -/
def JsFile.size (f : JsFile) : Nat := f.bytes.length

/-- Character-list test used to model JS `String.startsWith`. -/
def listStartsWith : List Char → List Char → Bool
  | _, [] => true
  | [], _ :: _ => false
  | c :: cs, d :: ds => c = d && listStartsWith cs ds

/-- JS `s.startsWith(p)`. -/
def strStartsWith (s p : String) : Bool := listStartsWith s.toList p.toList

/-- User-facing UI events surfaced by the component (antd `message` and
`notification` calls). -/
inductive UiEvent where
  | msgError (text : String)
  | notifInfo (message description : String)
  | notifSuccess (message description : String)
  | notifError (message description : String)
deriving DecidableEq

/-- Embedding of `beforeUpload` from src/components/ImageUploader.jsx lines
26-40: the boolean validation verdict together with the user-facing errors the
function surfaces.  The size test is the source's `file.size / 1024 / 1024 >= 2`
taken over exact rationals. -/
def beforeUploadE (f : JsFile) : Bool × List UiEvent :=
  if !(strStartsWith f.type "image/") then
    (false, [UiEvent.msgError "You can only upload image files!"])
  else if (2 : ℚ) ≤ (f.size : ℚ) / 1024 / 1024 then
    (false, [UiEvent.notifError "File Too Large" "Image must be smaller than 2MB!"])
  else
    (true, [])

/-- The boolean verdict of `beforeUpload`. -/
def beforeUpload (f : JsFile) : Bool := (beforeUploadE f).1

/-- Modelled from the spec: `handleFileChange` in src/components/ImageUploader.jsx
calls a predicate `validateFile` that is defined nowhere under src/.  Spec section
4.2 states that the upload adapter "rejects non-image MIME types and payloads at
or above 2 MiB, surfacing a user-facing error", which is exactly the behaviour of
the `beforeUpload` predicate declared in the same source file, so `validateFile`
is modelled as that predicate. -/
def validateFileE (f : JsFile) : Bool × List UiEvent := beforeUploadE f

/-- First-match lookup in a JS-object-as-association-list. -/
def getKey {α : Type} : List (String × α) → String → Option α
  | [], _ => none
  | (k, v) :: rest, key => if k = key then some v else getKey rest key

/-- JS object spread `{...prev, [key]: v}`: overwrite the value at an existing
key in place, or append the binding. -/
def setKey {α : Type} : List (String × α) → String → α → List (String × α)
  | [], key, v => [(key, v)]
  | (k, w) :: rest, key, v =>
      if k = key then (k, v) :: rest else (k, w) :: setKey rest key v

theorem getKey_setKey {α : Type} (m : List (String × α)) (k key : String) (v : α) :
    getKey (setKey m k v) key = if k = key then some v else getKey m key := by
  induction m with
  | nil => simp [setKey, getKey]
  | cons p rest ih =>
      obtain ⟨a, w⟩ := p
      by_cases hak : a = k
      · subst hak
        by_cases hkey : a = key
        · subst hkey; simp [setKey, getKey]
        · simp [setKey, getKey, hkey]
      · by_cases hkey : a = key
        · subst hkey
          simp [setKey, getKey, hak, Ne.symm hak]
        · simp [setKey, getKey, hak, hkey, ih]

/-- The base64 alphabet. -/
def b64Char (n : Nat) : Char :=
  if n < 26 then Char.ofNat (65 + n)
  else if n < 52 then Char.ofNat (97 + (n - 26))
  else if n < 62 then Char.ofNat (48 + (n - 52))
  else if n = 62 then '+'
  else '/'

/-- Standard base64 encoding of a byte list (used to model the data-URL preview
produced by `FileReader.readAsDataURL`). -/
def b64Encode : List Nat → List Char
  | a :: b :: c :: rest =>
      b64Char (a / 4) :: b64Char (a % 4 * 16 + b / 16) ::
        b64Char (b % 16 * 4 + c / 64) :: b64Char (c % 64) :: b64Encode rest
  | [a, b] => [b64Char (a / 4), b64Char (a % 4 * 16 + b / 16), b64Char (b % 16 * 4), '=']
  | [a] => [b64Char (a / 4), b64Char (a % 4 * 16), '=', '=']
  | [] => []

/-- Model of the value delivered by `getBase64` (lines 20-24): the data-URL
rendition of the staged binary, as produced by `FileReader.readAsDataURL`. -/
def encodePreview (f : JsFile) : String :=
  "data:" ++ f.type ++ ";base64," ++ String.mk (b64Encode f.bytes)

/-- The upload-adapter state of the `App` component (lines 366-400): staged
binaries per slot, previews per slot, the queue of FileReader callbacks not yet
delivered, and the camera-modal bookkeeping. -/
structure AppState where
  fileList : List (String × JsFile)
  imagePreviews : List (String × String)
  pendingPreviews : List (String × JsFile)
  showCamera : Bool
  currentCameraField : Option String
deriving DecidableEq

def initialAppState : AppState := ⟨[], [], [], false, none⟩

/-- Embedding of `handleFileChange` (src/components/ImageUploader.jsx lines
374-386) for a file-object change event: a still-uploading event is ignored; a
file failing validation is discarded with the surfaced errors; otherwise the
binary is staged at once and a preview callback for the same slot is queued. -/
def handleFileChange (fieldName : String) (uploading : Bool) (f : JsFile)
    (st : AppState) : AppState × List UiEvent :=
  if uploading then (st, [])
  else
    match validateFileE f with
    | (false, errs) => (st, errs)
    | (true, _) =>
        ({ st with
            fileList := setKey st.fileList fieldName f,
            pendingPreviews := st.pendingPreviews ++ [(fieldName, f)] }, [])

/-- Embedding of `handleCameraCapture` (lines 388-395): when a camera field is
active, stage the captured file for it and queue its preview callback; in every
case close the camera modal. -/
def handleCameraCapture (f : JsFile) (st : AppState) : AppState :=
  let st1 :=
    match st.currentCameraField with
    | some k =>
        { st with
            fileList := setKey st.fileList k f,
            pendingPreviews := st.pendingPreviews ++ [(k, f)] }
    | none => st
  { st1 with showCamera := false, currentCameraField := none }

/-- Embedding of `openCamera` (lines 397-400). -/
def openCamera (fieldName : String) (st : AppState) : AppState :=
  { st with currentCameraField := some fieldName, showCamera := true }

/-- Delivery of the oldest queued FileReader load callback: the preview of that
slot becomes the data-URL encoding of the binary the callback was created
for (lines 385 and 391). -/
def runPreviewCallback (st : AppState) : AppState :=
  match st.pendingPreviews with
  | [] => st
  | (k, f) :: rest =>
      { st with imagePreviews := setKey st.imagePreviews k (encodePreview f),
                pendingPreviews := rest }

theorem two_mib_le_iff (n : Nat) :
    (2 : ℚ) ≤ (n : ℚ) / 1024 / 1024 ↔ 2 * 1024 * 1024 ≤ n := by
  rw [div_div]
  rw [le_div_iff₀ (by norm_num : (0 : ℚ) < 1024 * 1024)]
  constructor
  · intro h
    exact_mod_cast h
  · intro h
    exact_mod_cast h

/-- C1: a file whose MIME type does not start with "image/", or whose byte size
is at least 2 MiB, is rejected by the upload adapter: the validation predicate
returns `false`, a user-facing error is surfaced, and the adapter state - in
particular the staged binary and the preview of the targeted slot - is left
unchanged. -/
theorem upload_rejects_invalid (f : JsFile) (st : AppState) (fieldName : String)
    (h : strStartsWith f.type "image/" = false ∨ 2 * 1024 * 1024 ≤ f.size) :
    (validateFileE f).1 = false ∧ (validateFileE f).2 ≠ [] ∧
      handleFileChange fieldName false f st = (st, (validateFileE f).2) := by
  have hval : (validateFileE f).1 = false ∧ (validateFileE f).2 ≠ [] := by
    by_cases hm : strStartsWith f.type "image/" = false
    · simp [validateFileE, beforeUploadE, hm]
    · rcases h with h | h
      · exact absurd h hm
      · have hsz : (2 : ℚ) ≤ (f.size : ℚ) / 1024 / 1024 := (two_mib_le_iff f.size).2 h
        simp only [Bool.not_eq_false] at hm
        simp [validateFileE, beforeUploadE, hm, hsz]
  refine ⟨hval.1, hval.2, ?_⟩
  have hpair : validateFileE f = (false, (validateFileE f).2) := by
    rw [← hval.1]
  simp only [handleFileChange]
  rw [hpair]
  simp

theorem upload_rejects_invalid_witness :
    (validateFileE ⟨"doc.txt", "text/plain", [1, 2, 3]⟩).1 = false ∧
      (validateFileE ⟨"doc.txt", "text/plain", [1, 2, 3]⟩).2 ≠ [] ∧
      handleFileChange "acknowledgement" false ⟨"doc.txt", "text/plain", [1, 2, 3]⟩
        initialAppState =
        (initialAppState, (validateFileE ⟨"doc.txt", "text/plain", [1, 2, 3]⟩).2) :=
  upload_rejects_invalid _ _ _ (Or.inl (by decide))

/-- A JS form-field value as inspected by `handleSubmit`: `undefined`, `null`,
or a string. -/
inductive JsValue where
  | undef
  | null
  | str (s : String)
deriving DecidableEq

/-- One part of a multipart `FormData` body. -/
inductive Part where
  | fieldPart (key value : String)
  | filePart (key : String) (f : JsFile)
deriving DecidableEq

/-- Embedding of the FormData assembly in `handleSubmit`
(src/components/ImageUploader.jsx lines 407-413): append every field whose value
is neither undefined, null nor the empty string, then append every staged file
keyed by its slot name. -/
def buildFormData (values : List (String × JsValue))
    (fileList : List (String × JsFile)) : List Part :=
  values.filterMap (fun p =>
    match p.2 with
    | JsValue.str s => if s ≠ "" then some (Part.fieldPart p.1 s) else none
    | _ => none)
    ++ fileList.map fun p => Part.filePart p.1 p.2

/-- The state of the host form at submission time: field values, staged
binaries, previews. -/
structure FormState where
  fields : List (String × JsValue)
  fileList : List (String × JsFile)
  imagePreviews : List (String × String)
deriving DecidableEq

/-- Outcome of the awaited `fetch` call: a response with `response.ok` true, a
response with a non-success status, or a thrown (network-level) error. -/
inductive FetchOutcome where
  | ok (status : Nat)
  | httpError (status : Nat)
  | thrown (msg : String)
deriving DecidableEq

structure SubmitResult where
  state : FormState
  events : List UiEvent
  body : List Part
deriving DecidableEq

/-- Embedding of `handleSubmit` (src/components/ImageUploader.jsx lines 402-452;
the handler in src/unnamed/part_000 lines 418-506 has the same state behaviour):
assemble the body, then on success clear the form fields, the staged files and
the previews; on a non-success status or a thrown error only surface a
notification and leave the state untouched. -/
def handleSubmit (st : FormState) (outcome : FetchOutcome) : SubmitResult :=
  let body := buildFormData st.fields st.fileList
  match outcome with
  | FetchOutcome.ok _ =>
      { state := { fields := [], fileList := [], imagePreviews := [] },
        events := [UiEvent.notifInfo "Submitting..." "Submitting update...",
                   UiEvent.notifSuccess "Success" "Order updated successfully!"],
        body := body }
  | FetchOutcome.httpError status =>
      { state := st,
        events := [UiEvent.notifInfo "Submitting..." "Submitting update...",
                   UiEvent.notifError "Update Failed"
                     ("Failed to update order (Status: " ++ toString status ++ ").")],
        body := body }
  | FetchOutcome.thrown msg =>
      { state := st,
        events := [UiEvent.notifInfo "Submitting..." "Submitting update...",
                   UiEvent.notifError "Error"
                     ("Update failed: " ++ (if msg = "" then "Unknown error" else msg))],
        body := body }

/-- C2: a successful submission clears every field value, every staged binary
and every preview; a submission that ends in a non-success status or a thrown
error leaves the whole form state exactly as it was before the call. -/
theorem submit_success_clears_failure_preserves (st : FormState)
    (outcome : FetchOutcome) :
    ((∃ s, outcome = FetchOutcome.ok s) →
        (handleSubmit st outcome).state.fields = [] ∧
        (handleSubmit st outcome).state.fileList = [] ∧
        (handleSubmit st outcome).state.imagePreviews = []) ∧
      ((∀ s, outcome ≠ FetchOutcome.ok s) → (handleSubmit st outcome).state = st) := by
  cases outcome with
  | ok s => exact ⟨fun _ => by simp [handleSubmit], fun h => absurd rfl (h s)⟩
  | httpError _ =>
      refine ⟨?_, fun _ => by simp [handleSubmit]⟩
      rintro ⟨t, ht⟩
      cases ht
  | thrown m =>
      refine ⟨?_, fun _ => by simp [handleSubmit]⟩
      rintro ⟨t, ht⟩
      cases ht

def sampleFormState : FormState :=
  { fields := [("orderID", JsValue.str "42"), ("fullName", JsValue.str "")],
    fileList := [("acknowledgement", ⟨"cnic-1.jpg", "image/jpeg", [7, 7]⟩)],
    imagePreviews := [("acknowledgement", "data:image/jpeg;base64,")] }

theorem submit_success_clears_failure_preserves_witness :
    ((handleSubmit sampleFormState (FetchOutcome.ok 200)).state.fields = [] ∧
      (handleSubmit sampleFormState (FetchOutcome.ok 200)).state.fileList = [] ∧
      (handleSubmit sampleFormState (FetchOutcome.ok 200)).state.imagePreviews = []) ∧
    (handleSubmit sampleFormState (FetchOutcome.httpError 500)).state = sampleFormState :=
  ⟨(submit_success_clears_failure_preserves sampleFormState (FetchOutcome.ok 200)).1
      ⟨200, rfl⟩,
   (submit_success_clears_failure_preserves sampleFormState (FetchOutcome.httpError 500)).2
      (fun _ h => FetchOutcome.noConfusion h)⟩

/-- C6: the assembled body holds exactly the field parts whose value is a
non-empty string (neither undefined nor null nor empty), plus one binary part
per staged image keyed by its slot name; with no staged image and every field
empty the body is empty. -/
theorem formdata_exact (values : List (String × JsValue))
    (fl : List (String × JsFile)) :
    (∀ k v, Part.fieldPart k v ∈ buildFormData values fl ↔
        ((k, JsValue.str v) ∈ values ∧ v ≠ "")) ∧
      (∀ k f, Part.filePart k f ∈ buildFormData values fl ↔ (k, f) ∈ fl) ∧
      ((∀ p ∈ values,
          p.2 = JsValue.undef ∨ p.2 = JsValue.null ∨ p.2 = JsValue.str "") →
        fl = [] → buildFormData values fl = []) := by
  refine ⟨fun k v => ?_, fun k f => ?_, fun hall hfl => ?_⟩
  · simp only [buildFormData, List.mem_append, List.mem_filterMap, List.mem_map]
    constructor
    · rintro (⟨⟨k', v'⟩, hmem, heq⟩ | ⟨⟨k', f'⟩, _, heq⟩)
      · match v' with
        | JsValue.undef => simp at heq
        | JsValue.null => simp at heq
        | JsValue.str s =>
            by_cases hs : s = "" <;> simp [hs] at heq
            obtain ⟨rfl, rfl⟩ := heq
            exact ⟨hmem, hs⟩
      · simp at heq
    · rintro ⟨hmem, hv⟩
      exact Or.inl ⟨(k, JsValue.str v), hmem, by simp [hv]⟩
  · simp only [buildFormData, List.mem_append, List.mem_filterMap, List.mem_map]
    constructor
    · rintro (⟨⟨k', v'⟩, _, heq⟩ | ⟨⟨k', f'⟩, hmem, heq⟩)
      · match v' with
        | JsValue.undef => simp at heq
        | JsValue.null => simp at heq
        | JsValue.str s => by_cases hs : s = "" <;> simp [hs] at heq
      · simp at heq
        obtain ⟨rfl, rfl⟩ := heq
        exact hmem
    · intro hmem
      exact Or.inr ⟨(k, f), hmem, rfl⟩
  · subst hfl
    simp only [buildFormData, List.map_nil, List.append_nil]
    rw [List.filterMap_eq_nil_iff]
    rintro ⟨k, v⟩ hmem
    rcases hall (k, v) hmem with h | h | h <;> simp_all

theorem formdata_exact_witness :
    Part.fieldPart "orderID" "42" ∈
        buildFormData sampleFormState.fields sampleFormState.fileList ∧
      Part.filePart "acknowledgement" ⟨"cnic-1.jpg", "image/jpeg", [7, 7]⟩ ∈
        buildFormData sampleFormState.fields sampleFormState.fileList ∧
      buildFormData [("fullName", JsValue.str ""), ("motherName", JsValue.undef)] [] = [] :=
  ⟨((formdata_exact sampleFormState.fields sampleFormState.fileList).1 "orderID" "42").2
      ⟨by decide, by decide⟩,
   ((formdata_exact sampleFormState.fields sampleFormState.fileList).2.1 "acknowledgement"
        ⟨"cnic-1.jpg", "image/jpeg", [7, 7]⟩).2 (by decide),
   (formdata_exact [("fullName", JsValue.str ""), ("motherName", JsValue.undef)] []).2.2
      (by decide) rfl⟩

/-- The observable inputs `captureImage` reads off the video element: native
pixel dimensions (absent until metadata loads), displayed (client) dimensions,
and the buffering readyState. -/
structure VideoState where
  videoWidth? : Option ℚ
  videoHeight? : Option ℚ
  clientWidth : ℚ
  clientHeight : ℚ
  readyState : Nat
deriving DecidableEq

/-- HTMLMediaElement.HAVE_ENOUGH_DATA. -/
def haveEnoughData : Nat := 4

/-- The CNIC card aspect constant of both capture variants
(`CNIC_ASPECT_RATIO = 1.586`, the 85.60 mm x 53.98 mm card). -/
def cnicAspect : ℚ := 1586 / 1000

/-- A source rectangle in native video pixel coordinates. -/
structure CropRect where
  x : ℚ
  y : ℚ
  w : ℚ
  h : ℚ
deriving DecidableEq

/-- The drawing performed by a successful capture: canvas size, the source crop
rectangle handed to `drawImage`, the destination rectangle, and the encoding
parameters of `toDataURL`. -/
structure CaptureResult where
  canvasWidth : Nat
  canvasHeight : Nat
  src : CropRect
  destX : Nat
  destY : Nat
  destW : Nat
  destH : Nat
  mime : String
  quality : ℚ
deriving DecidableEq

/-- What one invocation of a capture trigger does. -/
inductive CaptureOutcome where
  | noop
  | retryScheduled (delayMs : Nat)
  | captured (r : CaptureResult)
deriving DecidableEq

/-- Embedding of `captureImage` from src/components/ImageUploader.jsx lines
90-126: silently return unless both refs are set and the video reports
HAVE_ENOUGH_DATA; default missing native dimensions to the client ones; abort on
zero dimensions; otherwise map the centred 80%-width overlay rectangle to native
coordinates by the width and height display-to-native ratios and draw that
region onto a fixed 856x540 canvas encoded as JPEG at quality 0.9. -/
def captureImageJsx (videoRefSet canvasRefSet : Bool) (v : VideoState) :
    CaptureOutcome :=
  if !videoRefSet || !canvasRefSet || v.readyState ≠ haveEnoughData then
    CaptureOutcome.noop
  else
    let videoWidth := v.videoWidth?.getD v.clientWidth
    let videoHeight := v.videoHeight?.getD v.clientHeight
    if videoWidth = 0 ∨ videoHeight = 0 then CaptureOutcome.noop
    else
      let displayWidth := v.clientWidth
      let displayHeight := v.clientHeight
      let overlayWidth := displayWidth * (8 / 10)
      let overlayHeight := overlayWidth / cnicAspect
      let overlayX := (displayWidth - overlayWidth) / 2
      let overlayY := (displayHeight - overlayHeight) / 2
      let scaleX := videoWidth / displayWidth
      let scaleY := videoHeight / displayHeight
      CaptureOutcome.captured
        { canvasWidth := 856, canvasHeight := 540,
          src := ⟨overlayX * scaleX, overlayY * scaleY,
                  overlayWidth * scaleX, overlayHeight * scaleY⟩,
          destX := 0, destY := 0, destW := 856, destH := 540,
          mime := "image/jpeg", quality := 9 / 10 }

/-- Embedding of `captureImage` from src/unnamed/part_000 lines 108-174: when
the refs are set but the video reports insufficient data it schedules an
automatic retry of itself after 100 ms (`setTimeout(captureImage, 100)`);
otherwise it centre-crops the native frame to the CNIC aspect (ignoring the
displayed size) and draws onto the same 856x540 JPEG canvas. -/
def captureImageP0 (videoRefSet canvasRefSet : Bool) (v : VideoState) :
    CaptureOutcome :=
  if !videoRefSet || !canvasRefSet then CaptureOutcome.noop
  else if v.readyState ≠ haveEnoughData then CaptureOutcome.retryScheduled 100
  else
    let videoWidth :=
      match v.videoWidth? with
      | some w => if w = 0 then v.clientWidth else w
      | none => v.clientWidth
    let videoHeight :=
      match v.videoHeight? with
      | some h => if h = 0 then v.clientHeight else h
      | none => v.clientHeight
    if videoWidth = 0 ∨ videoHeight = 0 then CaptureOutcome.noop
    else
      let cropPair :=
        if videoWidth / videoHeight > cnicAspect then
          (videoHeight * cnicAspect, videoHeight)
        else
          (videoWidth, videoWidth / cnicAspect)
      let cropWidth := cropPair.1
      let cropHeight := cropPair.2
      let startX := (videoWidth - cropWidth) / 2
      let startY := (videoHeight - cropHeight) / 2
      CaptureOutcome.captured
        { canvasWidth := 856, canvasHeight := 540,
          src := ⟨startX, startY, cropWidth, cropHeight⟩,
          destX := 0, destY := 0, destW := 856, destH := 540,
          mime := "image/jpeg", quality := 9 / 10 }

/-- Every image a capture outcome carries is drawn onto the full fixed 856x540
canvas, encoded as JPEG at quality 0.9. -/
def fixedFormat (o : CaptureOutcome) : Prop :=
  match o with
  | CaptureOutcome.captured r =>
      r.canvasWidth = 856 ∧ r.canvasHeight = 540 ∧ r.destX = 0 ∧ r.destY = 0 ∧
        r.destW = 856 ∧ r.destH = 540 ∧ r.mime = "image/jpeg" ∧ r.quality = 9 / 10
  | _ => True

theorem captureImageJsx_fixedFormat (b1 b2 : Bool) (v : VideoState) :
    fixedFormat (captureImageJsx b1 b2 v) := by
  simp only [captureImageJsx]
  repeat' split
  all_goals simp [fixedFormat]

theorem captureImageP0_fixedFormat (b1 b2 : Bool) (v : VideoState) :
    fixedFormat (captureImageP0 b1 b2 v) := by
  simp only [captureImageP0]
  repeat' split
  all_goals simp [fixedFormat]

/-- C3: whichever variant runs, and whatever the native and displayed
dimensions, a successful capture draws onto a canvas of exactly 856x540 pixels,
filling it entirely, and encodes it as JPEG at quality 0.9. -/
theorem capture_output_fixed_size (b1 b2 : Bool) (v : VideoState)
    (r : CaptureResult) :
    (captureImageJsx b1 b2 v = CaptureOutcome.captured r →
        r.canvasWidth = 856 ∧ r.canvasHeight = 540 ∧ r.destX = 0 ∧ r.destY = 0 ∧
          r.destW = 856 ∧ r.destH = 540 ∧ r.mime = "image/jpeg" ∧
          r.quality = 9 / 10) ∧
      (captureImageP0 b1 b2 v = CaptureOutcome.captured r →
        r.canvasWidth = 856 ∧ r.canvasHeight = 540 ∧ r.destX = 0 ∧ r.destY = 0 ∧
          r.destW = 856 ∧ r.destH = 540 ∧ r.mime = "image/jpeg" ∧
          r.quality = 9 / 10) := by
  constructor
  · intro h
    have hf := captureImageJsx_fixedFormat b1 b2 v
    rw [h] at hf
    exact hf
  · intro h
    have hf := captureImageP0_fixedFormat b1 b2 v
    rw [h] at hf
    exact hf

/-- A concrete jsx-variant input: 100x100 displayed, 200x300 native, ready. -/
def vJsx0 : VideoState := ⟨some 200, some 300, 100, 100, 4⟩

/-- The capture the jsx variant performs on `vJsx0`. -/
def rJsx0 : CaptureResult :=
  { canvasWidth := 856, canvasHeight := 540,
    src := ⟨20, 58950 / 793, 160, 120000 / 793⟩,
    destX := 0, destY := 0, destW := 856, destH := 540,
    mime := "image/jpeg", quality := 9 / 10 }

/-- A concrete part_000-variant input: 100x100 displayed, 1920x1080 native. -/
def vP00 : VideoState := ⟨some 1920, some 1080, 100, 100, 4⟩

/-- The capture the part_000 variant performs on `vP00`. -/
def rP00 : CaptureResult :=
  { canvasWidth := 856, canvasHeight := 540,
    src := ⟨2589 / 25, 0, 42822 / 25, 1080⟩,
    destX := 0, destY := 0, destW := 856, destH := 540,
    mime := "image/jpeg", quality := 9 / 10 }

theorem captureImageJsx_vJsx0 :
    captureImageJsx true true vJsx0 = CaptureOutcome.captured rJsx0 := by
  unfold captureImageJsx vJsx0 rJsx0 haveEnoughData cnicAspect
  norm_num

theorem captureImageP0_vP00 :
    captureImageP0 true true vP00 = CaptureOutcome.captured rP00 := by
  unfold captureImageP0 vP00 rP00 haveEnoughData cnicAspect
  norm_num

theorem capture_output_fixed_size_witness :
    rJsx0.canvasWidth = 856 ∧ rJsx0.canvasHeight = 540 ∧
      rP00.canvasWidth = 856 ∧ rP00.canvasHeight = 540 :=
  ⟨((capture_output_fixed_size true true vJsx0 rJsx0).1 captureImageJsx_vJsx0).1,
   ((capture_output_fixed_size true true vJsx0 rJsx0).1 captureImageJsx_vJsx0).2.1,
   ((capture_output_fixed_size true true vP00 rP00).2 captureImageP0_vP00).1,
   ((capture_output_fixed_size true true vP00 rP00).2 captureImageP0_vP00).2.1⟩

/-- The crop-rectangle computation of the jsx variant, as a predicate on
outcomes: the source rectangle is the centred 80%-width overlay rectangle of
the displayed video, scaled to native coordinates by the width ratio on x/w and
by the height ratio on y/h. -/
def jsxCropSpec (v : VideoState) (o : CaptureOutcome) : Prop :=
  match o with
  | CaptureOutcome.captured r =>
      r.src.x = (v.clientWidth - v.clientWidth * (8 / 10)) / 2 *
          (v.videoWidth?.getD v.clientWidth / v.clientWidth) ∧
        r.src.y = (v.clientHeight - v.clientWidth * (8 / 10) / cnicAspect) / 2 *
          (v.videoHeight?.getD v.clientHeight / v.clientHeight) ∧
        r.src.w = v.clientWidth * (8 / 10) *
          (v.videoWidth?.getD v.clientWidth / v.clientWidth) ∧
        r.src.h = v.clientWidth * (8 / 10) / cnicAspect *
          (v.videoHeight?.getD v.clientHeight / v.clientHeight)
  | _ => True

theorem captureImageJsx_cropSpec (b1 b2 : Bool) (v : VideoState) :
    jsxCropSpec v (captureImageJsx b1 b2 v) := by
  simp only [captureImageJsx]
  repeat' split
  all_goals simp [jsxCropSpec]

/-- C4 (amended to the src/components/ImageUploader.jsx variant): the capture
trigger computes the crop region by mapping the centred overlay rectangle of
width 0.8 * displayWidth and height 0.8 * displayWidth / 1.586 into native
coordinates, scaling x/width by videoWidth/displayWidth and y/height by
videoHeight/displayHeight independently, and draws only that region onto the
full output canvas; consequently the native crop width is 0.8 * videoWidth and
the crop is horizontally centred in the native frame. -/
theorem crop_overlay_mapping (v : VideoState) (r : CaptureResult) (W H : ℚ)
    (hW : v.videoWidth? = some W) (hH : v.videoHeight? = some H)
    (hdw : v.clientWidth ≠ 0)
    (h : captureImageJsx true true v = CaptureOutcome.captured r) :
    r.src.x = (v.clientWidth - v.clientWidth * (8 / 10)) / 2 * (W / v.clientWidth) ∧
      r.src.y = (v.clientHeight - v.clientWidth * (8 / 10) / cnicAspect) / 2 *
        (H / v.clientHeight) ∧
      r.src.w = v.clientWidth * (8 / 10) * (W / v.clientWidth) ∧
      r.src.h = v.clientWidth * (8 / 10) / cnicAspect * (H / v.clientHeight) ∧
      r.src.w = 8 / 10 * W ∧
      r.src.x = (W - r.src.w) / 2 ∧
      r.destX = 0 ∧ r.destY = 0 ∧ r.destW = 856 ∧ r.destH = 540 := by
  have hc := captureImageJsx_cropSpec true true v
  have hf := captureImageJsx_fixedFormat true true v
  rw [h] at hc hf
  simp only [jsxCropSpec, hW, hH, Option.getD] at hc
  obtain ⟨hx, hy, hw, hh⟩ := hc
  have hw' : r.src.w = 8 / 10 * W := by
    rw [hw]
    field_simp
    ring
  refine ⟨hx, hy, hw, hh, hw', ?_, hf.2.2.1, hf.2.2.2.1, hf.2.2.2.2.1, hf.2.2.2.2.2.1⟩
  rw [hx, hw']
  field_simp
  ring

theorem crop_overlay_mapping_witness :
    rJsx0.src.w = 8 / 10 * 200 ∧ rJsx0.src.x = (200 - rJsx0.src.w) / 2 :=
  ⟨(crop_overlay_mapping vJsx0 rJsx0 200 300 rfl rfl (by norm_num [vJsx0])
      captureImageJsx_vJsx0).2.2.2.2.1,
   (crop_overlay_mapping vJsx0 rJsx0 200 300 rfl rfl (by norm_num [vJsx0])
      captureImageJsx_vJsx0).2.2.2.2.2.1⟩

/-- C4 counterexample: the capture trigger of src/unnamed/part_000 does not use
the overlay mapping.  On a 100x100 displayed video with a 1920x1080 native
frame it centre-crops the native frame to the card aspect (width 1712.88),
whereas the claimed overlay mapping would give width
0.8 * 100 * (1920 / 100) = 1536. -/
theorem crop_overlay_mapping_cex :
    captureImageP0 true true vP00 = CaptureOutcome.captured rP00 ∧
      rP00.src.w ≠ vP00.clientWidth * (8 / 10) *
        (vP00.videoWidth?.getD vP00.clientWidth / vP00.clientWidth) := by
  refine ⟨captureImageP0_vP00, ?_⟩
  norm_num [rP00, vP00]

/-- A media track acquired from getUserMedia, with its stop flag. -/
structure Track where
  id : Nat
  stopped : Bool
deriving DecidableEq

/-- The state of one `CnicCamera` modal instance: the stream attached to the
video element (as the ids of its tracks), every track acquired so far in this
session, and the React state flags. -/
structure CamSession where
  srcObject : Option (List Nat)
  tracks : List Track
  isStreaming : Bool
  errorMsg : Option String
  capturedImage : Option CaptureResult
  showPreview : Bool
deriving DecidableEq

def initSession : CamSession := ⟨none, [], false, none, none, false⟩

/-- Observable actions of the camera modal, in the order they happen. -/
inductive Action where
  | tracksStopped (ids : List Nat)
  | fileDelivered (name mime : String)
  | restartScheduled (delayMs : Nat)
  | closeSignaled
deriving DecidableEq

def Action.isDelivery : Action → Bool
  | Action.fileDelivered _ _ => true
  | _ => false

def stopTrack (ids : List Nat) (t : Track) : Track :=
  if t.id ∈ ids then { t with stopped := true } else t

/-- Embedding of `stopCamera` (src/components/ImageUploader.jsx lines 82-88):
stop every track of the current srcObject and detach it; a no-op when no stream
is attached. -/
def stopCamera (s : CamSession) : CamSession × List Action :=
  match s.srcObject with
  | some ids =>
      ({ s with tracks := s.tracks.map (stopTrack ids), srcObject := none,
                isStreaming := false },
       [Action.tracksStopped ids])
  | none => (s, [])

/-- Fresh ids for the tracks of a newly acquired stream. -/
def freshIds (s : CamSession) (n : Nat) : List Nat :=
  (List.range n).map fun i => s.tracks.length + i

/-- Embedding of `startCamera` (lines 53-80) when getUserMedia resolves with a
stream of `n` tracks: clear the error, stop any previous stream, attach the new
tracks, then either start streaming (play resolved) or record the play error. -/
def startCameraOk (n : Nat) (playOk : Bool) (s : CamSession) : CamSession :=
  let s0 := { s with errorMsg := none, isStreaming := false }
  let s1 := (stopCamera s0).1
  let ids := freshIds s1 n
  let s2 := { s1 with srcObject := some ids,
                      tracks := s1.tracks ++ ids.map fun i => Track.mk i false }
  if playOk then { s2 with isStreaming := true }
  else { s2 with errorMsg := some "Unable to start camera." }

/-- Embedding of `startCamera` when getUserMedia rejects: no track is acquired
and the permission error is shown. -/
def startCameraFail (s : CamSession) : CamSession :=
  let s0 := { s with errorMsg := none, isStreaming := false }
  let s1 := (stopCamera s0).1
  { s1 with errorMsg := some "Unable to access camera. Please check permissions." }

/-- The state effect of `captureImage` (lines 90-126) on the modal: a captured
frame is stored and previewed; any other outcome leaves the state untouched. -/
def applyCapture (s : CamSession) (v : VideoState) : CamSession :=
  match captureImageJsx true true v with
  | CaptureOutcome.captured r => { s with capturedImage := some r, showPreview := true }
  | _ => s

/-- Embedding of `confirmCapture` (lines 128-138): with a captured still, hand
exactly one JPEG file named with the capture timestamp to the caller, then stop
the camera; without one, do nothing. -/
def confirmCapture (ts : Nat) (s : CamSession) : CamSession × List Action :=
  match s.capturedImage with
  | none => (s, [])
  | some _ =>
      let p := stopCamera s
      (p.1, Action.fileDelivered ("cnic-" ++ toString ts ++ ".jpg") "image/jpeg" :: p.2)

/-- Embedding of `retakePhoto` (lines 140-144): discard the still, leave the
preview, and schedule `startCamera` after 100 ms. -/
def retakePhoto (s : CamSession) : CamSession × List Action :=
  ({ s with capturedImage := none, showPreview := false },
   [Action.restartScheduled 100])

/-- Embedding of `handleClose` (lines 151-154): stop the camera, then signal
closure to the host form. -/
def handleClose (s : CamSession) : CamSession × List Action :=
  let p := stopCamera s
  (p.1, p.2 ++ [Action.closeSignaled])

/-- The events that can hit one camera-modal session. -/
inductive CamOp where
  | startOk (n : Nat) (playOk : Bool)
  | startFail
  | capture (v : VideoState)
  | confirm (ts : Nat)
  | retake
deriving DecidableEq

def applyCamOp (s : CamSession) : CamOp → CamSession
  | CamOp.startOk n p => startCameraOk n p s
  | CamOp.startFail => startCameraFail s
  | CamOp.capture v => applyCapture s v
  | CamOp.confirm ts => (confirmCapture ts s).1
  | CamOp.retake => (retakePhoto s).1

def runCamOps (ops : List CamOp) : CamSession :=
  ops.foldl applyCamOp initSession

/-- Session cleanup invariant: every acquired track is stopped unless it
belongs to the stream currently attached to the video element. -/
def TracksInv (s : CamSession) : Prop :=
  ∀ t ∈ s.tracks, t.stopped = true ∨ ∃ ids, s.srcObject = some ids ∧ t.id ∈ ids

theorem stopTrack_stopped (ids : List Nat) (t : Track) (h : t.stopped = true) :
    (stopTrack ids t).stopped = true := by
  unfold stopTrack
  split <;> simp [h]

theorem stopCamera_stops (s : CamSession) (h : TracksInv s) :
    ∀ t ∈ (stopCamera s).1.tracks, t.stopped = true := by
  unfold TracksInv at h
  unfold stopCamera
  cases hsrc : s.srcObject with
  | none =>
      intro t ht
      simp only at ht
      rcases h t ht with hstop | ⟨ids', hids', _⟩
      · exact hstop
      · rw [hsrc] at hids'
        cases hids'
  | some ids =>
      intro t ht
      simp only [List.mem_map] at ht
      obtain ⟨u, hu, rfl⟩ := ht
      rcases h u hu with hstop | ⟨ids', hids', hin⟩
      · exact stopTrack_stopped ids u hstop
      · rw [hsrc] at hids'
        injection hids' with hids'
        subst hids'
        simp [stopTrack, hin]

theorem tracksInv_stopCamera (s : CamSession) (h : TracksInv s) :
    TracksInv (stopCamera s).1 := by
  have hall := stopCamera_stops s h
  intro t ht
  exact Or.inl (hall t ht)

theorem tracksInv_startCameraOk (n : Nat) (playOk : Bool) (s : CamSession)
    (h : TracksInv s) : TracksInv (startCameraOk n playOk s) := by
  have h0 : TracksInv { s with errorMsg := none, isStreaming := false } := by
    unfold TracksInv at h ⊢
    exact h
  have h1 := stopCamera_stops _ h0
  simp only [startCameraOk]
  split
  all_goals
    unfold TracksInv
    intro t ht
    simp only [List.mem_append, List.mem_map] at ht
    rcases ht with ht | ⟨i, hi, rfl⟩
    · exact Or.inl (h1 t ht)
    · exact Or.inr ⟨_, rfl, hi⟩

theorem tracksInv_startCameraFail (s : CamSession) (h : TracksInv s) :
    TracksInv (startCameraFail s) := by
  have h0 : TracksInv { s with errorMsg := none, isStreaming := false } := by
    unfold TracksInv at h ⊢
    exact h
  have h1 := stopCamera_stops _ h0
  simp only [startCameraFail]
  unfold TracksInv
  intro t ht
  exact Or.inl (h1 t ht)

theorem tracksInv_applyCamOp (s : CamSession) (op : CamOp) (h : TracksInv s) :
    TracksInv (applyCamOp s op) := by
  cases op with
  | startOk n p => exact tracksInv_startCameraOk n p s h
  | startFail => exact tracksInv_startCameraFail s h
  | capture v =>
      simp only [applyCamOp]
      unfold applyCapture
      cases captureImageJsx true true v with
      | captured r =>
          unfold TracksInv at h ⊢
          exact h
      | noop => exact h
      | retryScheduled d => exact h
  | confirm ts =>
      simp only [applyCamOp]
      unfold confirmCapture
      cases s.capturedImage with
      | none => exact h
      | some r => exact tracksInv_stopCamera s h
  | retake =>
      simp only [applyCamOp]
      unfold retakePhoto
      unfold TracksInv at h ⊢
      exact h

theorem tracksInv_runCamOps (ops : List CamOp) : TracksInv (runCamOps ops) := by
  have key : ∀ (l : List CamOp) (s : CamSession), TracksInv s →
      TracksInv (l.foldl applyCamOp s) := by
    intro l
    induction l with
    | nil => intro s hs; simpa using hs
    | cons op rest ih =>
        intro s hs
        exact ih (applyCamOp s op) (tracksInv_applyCamOp s op hs)
  have hinit : TracksInv initSession := by
    unfold TracksInv initSession
    intro t ht
    simp at ht
  exact key ops initSession hinit

/-- C7: from any state the capture flow can reach, closing via cancel stops
every media track acquired in the session, and the closure signal to the host
form comes after the track stops: it is the last action of the close trace and
appears nowhere before. -/
theorem close_stops_all_tracks (ops : List CamOp) :
    (∀ t ∈ (handleClose (runCamOps ops)).1.tracks, t.stopped = true) ∧
      (handleClose (runCamOps ops)).2.getLast? = some Action.closeSignaled ∧
      ∀ a ∈ (handleClose (runCamOps ops)).2.dropLast, a ≠ Action.closeSignaled := by
  have hinv := tracksInv_runCamOps ops
  refine ⟨?_, ?_, ?_⟩
  · intro t ht
    exact stopCamera_stops _ hinv t (by simpa [handleClose] using ht)
  · simp [handleClose]
  · unfold handleClose
    simp only [List.dropLast_concat]
    unfold stopCamera
    cases (runCamOps ops).srcObject <;> simp

def camOps0 : List CamOp := [CamOp.startOk 2 true]

theorem close_stops_all_tracks_witness :
    Track.stopped ⟨0, true⟩ = true ∧
      (handleClose (runCamOps camOps0)).2.getLast? = some Action.closeSignaled ∧
      Action.tracksStopped [0, 1] ≠ Action.closeSignaled :=
  ⟨(close_stops_all_tracks camOps0).1 ⟨0, true⟩ (by decide),
   (close_stops_all_tracks camOps0).2.1,
   (close_stops_all_tracks camOps0).2.2 (Action.tracksStopped [0, 1]) (by decide)⟩

/-- C5 (amended to the src/components/ImageUploader.jsx variant): a capture
trigger issued while the video reports insufficient buffered data returns
silently - no image is produced, no retry is scheduled, and the modal state
(including its error field) is completely unchanged; a new capture happens only
when the caller triggers it again. -/
theorem capture_not_ready_silent (b1 b2 : Bool) (v : VideoState) (s : CamSession)
    (h : v.readyState ≠ haveEnoughData) :
    captureImageJsx b1 b2 v = CaptureOutcome.noop ∧
      (∀ d, captureImageJsx b1 b2 v ≠ CaptureOutcome.retryScheduled d) ∧
      applyCapture s v = s := by
  have hjsx : captureImageJsx b1 b2 v = CaptureOutcome.noop := by
    unfold captureImageJsx
    have : (!b1 || !b2 || decide (v.readyState ≠ haveEnoughData)) = true := by
      simp [h]
    rw [if_pos this]
  have hjsx' : captureImageJsx true true v = CaptureOutcome.noop := by
    unfold captureImageJsx
    have : (!true || !true || decide (v.readyState ≠ haveEnoughData)) = true := by
      simp [h]
    rw [if_pos this]
  refine ⟨hjsx, ?_, ?_⟩
  · intro d hd
    rw [hjsx] at hd
    cases hd
  · unfold applyCapture
    rw [hjsx']

/-- C5 counterexample: on the very same not-ready trigger, the capture trigger
of src/unnamed/part_000 schedules an automatic retry of itself after 100 ms. -/
theorem capture_not_ready_cex :
    VideoState.readyState ⟨some 1920, some 1080, 600, 450, 0⟩ ≠ haveEnoughData ∧
      captureImageP0 true true ⟨some 1920, some 1080, 600, 450, 0⟩ =
        CaptureOutcome.retryScheduled 100 := by
  constructor
  · decide
  · rfl

theorem capture_not_ready_silent_witness :
    captureImageJsx true true ⟨some 1920, some 1080, 600, 450, 0⟩ =
        CaptureOutcome.noop ∧
      applyCapture initSession ⟨some 1920, some 1080, 600, 450, 0⟩ = initSession :=
  ⟨(capture_not_ready_silent true true ⟨some 1920, some 1080, 600, 450, 0⟩
      initSession (by decide)).1,
   (capture_not_ready_silent true true ⟨some 1920, some 1080, 600, 450, 0⟩
      initSession (by decide)).2.2⟩

/-- C8: in the previewing state the accept action hands the caller exactly one
binary file, a JPEG named with the capture timestamp, as the first action of
its trace, and only then releases the camera (the stream is detached and, under
the session cleanup invariant, every acquired track is stopped); the retake
action discards the captured still, leaves the preview mode, schedules a
stream restart and neither closes the flow nor delivers a file. -/
theorem confirm_delivers_retake_discards (s : CamSession) (ts : Nat)
    (r : CaptureResult) (hs : s.capturedImage = some r) (hinv : TracksInv s) :
    (confirmCapture ts s).2.head? =
        some (Action.fileDelivered ("cnic-" ++ toString ts ++ ".jpg") "image/jpeg") ∧
      ((confirmCapture ts s).2.filter Action.isDelivery).length = 1 ∧
      (∀ a ∈ (confirmCapture ts s).2, a ≠ Action.closeSignaled) ∧
      (confirmCapture ts s).1.srcObject = none ∧
      (∀ t ∈ (confirmCapture ts s).1.tracks, t.stopped = true) ∧
      (retakePhoto s).1.capturedImage = none ∧
      (retakePhoto s).1.showPreview = false ∧
      (retakePhoto s).2 = [Action.restartScheduled 100] ∧
      (∀ a ∈ (retakePhoto s).2,
          a ≠ Action.closeSignaled ∧ Action.isDelivery a = false) ∧
      ∀ n : Nat, (startCameraOk n true (retakePhoto s).1).isStreaming = true := by
  have hconf : confirmCapture ts s =
      ((stopCamera s).1,
        Action.fileDelivered ("cnic-" ++ toString ts ++ ".jpg") "image/jpeg"
          :: (stopCamera s).2) := by
    unfold confirmCapture
    rw [hs]
  refine ⟨?_, ?_, ?_, ?_, ?_, rfl, rfl, rfl, ?_, ?_⟩
  · rw [hconf]
    rfl
  · rw [hconf]
    unfold stopCamera
    cases s.srcObject <;> simp [Action.isDelivery]
  · rw [hconf]
    intro a ha
    rcases List.mem_cons.1 ha with rfl | ha
    · simp
    · unfold stopCamera at ha
      revert ha
      cases s.srcObject with
      | none => simp
      | some ids =>
          simp only [List.mem_singleton]
          rintro rfl
          simp
  · rw [hconf]
    unfold stopCamera
    cases hsrc : s.srcObject with
    | none => simpa using hsrc
    | some ids => rfl
  · rw [hconf]
    exact stopCamera_stops s hinv
  · intro a ha
    simp only [retakePhoto, List.mem_singleton] at ha
    subst ha
    exact ⟨by simp, rfl⟩
  · intro n
    simp only [startCameraOk]
    rfl

def previewSession : CamSession :=
  { srcObject := some [0], tracks := [⟨0, false⟩], isStreaming := true,
    errorMsg := none, capturedImage := some rJsx0, showPreview := true }

theorem confirm_delivers_retake_discards_witness :
    (confirmCapture 5 previewSession).2.head? =
        some (Action.fileDelivered ("cnic-" ++ toString 5 ++ ".jpg") "image/jpeg") ∧
      ((confirmCapture 5 previewSession).2.filter Action.isDelivery).length = 1 ∧
      (retakePhoto previewSession).1.capturedImage = none :=
  ⟨(confirm_delivers_retake_discards previewSession 5 rJsx0 rfl
      (by
        unfold TracksInv previewSession
        intro t ht
        simp only [List.mem_singleton] at ht
        subst ht
        exact Or.inr ⟨[0], rfl, by simp⟩)).1,
   (confirm_delivers_retake_discards previewSession 5 rJsx0 rfl
      (by
        unfold TracksInv previewSession
        intro t ht
        simp only [List.mem_singleton] at ht
        subst ht
        exact Or.inr ⟨[0], rfl, by simp⟩)).2.1,
   (confirm_delivers_retake_discards previewSession 5 rJsx0 rfl
      (by
        unfold TracksInv previewSession
        intro t ht
        simp only [List.mem_singleton] at ht
        subst ht
        exact Or.inr ⟨[0], rfl, by simp⟩)).2.2.2.2.2.1⟩

/-- The staging and preview-callback events that can hit the upload adapter. -/
inductive UploadOp where
  | fileChange (fieldName : String) (uploading : Bool) (f : JsFile)
  | cameraCapture (f : JsFile)
  | camOpen (fieldName : String)
  | previewDone
deriving DecidableEq

def applyUploadOp (st : AppState) : UploadOp → AppState
  | UploadOp.fileChange k u f => (handleFileChange k u f st).1
  | UploadOp.cameraCapture f => handleCameraCapture f st
  | UploadOp.camOpen k => openCamera k st
  | UploadOp.previewDone => runPreviewCallback st

def runUploadOps (ops : List UploadOp) : AppState :=
  ops.foldl applyUploadOp initialAppState

/-- The queued preview callbacks that target slot `k`. -/
def pendingFor (l : List (String × JsFile)) (k : String) : List (String × JsFile) :=
  l.filter fun p => p.1 = k

/-- Adapter coherence invariant: for every slot, if no preview callback is
pending for it then its preview is exactly the encoding of its staged binary,
and otherwise its staged binary is the one of the youngest pending callback. -/
def stagedInv (st : AppState) : Prop :=
  ∀ k : String,
    (pendingFor st.pendingPreviews k = [] →
        getKey st.imagePreviews k = (getKey st.fileList k).map encodePreview) ∧
      ∀ q, (pendingFor st.pendingPreviews k).getLast? = some q →
        getKey st.fileList k = some q.2

theorem pendingFor_append (l l' : List (String × JsFile)) (k : String) :
    pendingFor (l ++ l') k = pendingFor l k ++ pendingFor l' k := by
  unfold pendingFor
  exact List.filter_append _ _

theorem pendingFor_singleton (k k' : String) (f : JsFile) :
    pendingFor [(k, f)] k' = if k = k' then [(k, f)] else [] := by
  unfold pendingFor
  by_cases h : k = k' <;> simp [h]

theorem pendingFor_cons (k0 k : String) (f0 : JsFile)
    (l : List (String × JsFile)) :
    pendingFor ((k0, f0) :: l) k =
      if k0 = k then (k0, f0) :: pendingFor l k else pendingFor l k := by
  unfold pendingFor
  by_cases h : k0 = k <;> simp [List.filter_cons, h]

/-- Staging a binary for a slot and queueing its preview callback preserves the
adapter coherence invariant. -/
theorem stagedInv_stage (st : AppState) (k₀ : String) (f : JsFile)
    (sc : Bool) (cf : Option String) (h : stagedInv st) :
    stagedInv { st with fileList := setKey st.fileList k₀ f,
                        pendingPreviews := st.pendingPreviews ++ [(k₀, f)],
                        showCamera := sc, currentCameraField := cf } := by
  unfold stagedInv at h ⊢
  intro k
  dsimp only
  rw [pendingFor_append, pendingFor_singleton, getKey_setKey]
  by_cases hk : k₀ = k
  · subst hk
    rw [if_pos rfl, if_pos rfl]
    constructor
    · intro hpend
      simp at hpend
    · intro q hq
      rw [List.getLast?_concat] at hq
      injection hq with hq
      subst hq
      rfl
  · rw [if_neg hk, if_neg hk, List.append_nil]
    exact h k

theorem stagedInv_handleFileChange (k₀ : String) (u : Bool) (f : JsFile)
    (st : AppState) (h : stagedInv st) :
    stagedInv (handleFileChange k₀ u f st).1 := by
  unfold handleFileChange
  cases u with
  | true => simpa using h
  | false =>
      simp only [Bool.false_eq_true, if_false]
      cases hv : validateFileE f with
      | mk b errs =>
          cases b
          · exact h
          · exact stagedInv_stage st k₀ f st.showCamera st.currentCameraField h

theorem stagedInv_handleCameraCapture (f : JsFile) (st : AppState)
    (h : stagedInv st) : stagedInv (handleCameraCapture f st) := by
  unfold handleCameraCapture
  cases hc : st.currentCameraField with
  | none => exact h
  | some k₀ => exact stagedInv_stage st k₀ f false none h

theorem stagedInv_runPreviewCallback (st : AppState) (h : stagedInv st) :
    stagedInv (runPreviewCallback st) := by
  unfold runPreviewCallback
  cases hp : st.pendingPreviews with
  | nil => exact h
  | cons hd rest =>
      obtain ⟨k0, f0⟩ := hd
      unfold stagedInv at h ⊢
      intro k
      dsimp only
      rw [getKey_setKey]
      by_cases hk : k0 = k
      · subst hk
        rw [if_pos rfl]
        have hold := (h k0).2
        rw [hp, pendingFor_cons, if_pos rfl] at hold
        constructor
        · intro hpend
          have hfl : getKey st.fileList k0 = some f0 := by
            apply hold (k0, f0)
            rw [hpend]
            rfl
          rw [hfl]
          rfl
        · intro q hq
          have hne : pendingFor rest k0 ≠ [] := by
            intro hnil
            rw [hnil] at hq
            cases hq
          apply hold q
          cases hfr : pendingFor rest k0 with
          | nil => exact absurd hfr hne
          | cons q' qs =>
              rw [List.getLast?_cons_cons]
              rw [hfr] at hq
              exact hq
      · rw [if_neg hk]
        have hk' := h k
        rw [hp, pendingFor_cons, if_neg hk] at hk'
        exact hk'

theorem stagedInv_applyUploadOp (st : AppState) (op : UploadOp)
    (h : stagedInv st) : stagedInv (applyUploadOp st op) := by
  cases op with
  | fileChange k u f => exact stagedInv_handleFileChange k u f st h
  | cameraCapture f => exact stagedInv_handleCameraCapture f st h
  | camOpen k => exact h
  | previewDone => exact stagedInv_runPreviewCallback st h

theorem stagedInv_runUploadOps (ops : List UploadOp) :
    stagedInv (runUploadOps ops) := by
  have key : ∀ (l : List UploadOp) (st : AppState), stagedInv st →
      stagedInv (l.foldl applyUploadOp st) := by
    intro l
    induction l with
    | nil => intro st hs; simpa using hs
    | cons op rest ih =>
        intro st hs
        exact ih (applyUploadOp st op) (stagedInv_applyUploadOp st op hs)
  have hinit : stagedInv initialAppState := by
    unfold stagedInv initialAppState pendingFor
    intro k
    refine ⟨fun _ => rfl, fun q hq => ?_⟩
    cases hq
  exact key ops initialAppState hinit

/-- C9: after every sequence of staging events, once every pending preview
callback has been delivered, each slot's preview is exactly the encoding of the
binary currently staged for that slot (and a slot with no staged binary has no
preview). -/
theorem preview_matches_staged (ops : List UploadOp)
    (h : (runUploadOps ops).pendingPreviews = []) :
    ∀ k, getKey (runUploadOps ops).imagePreviews k =
      (getKey (runUploadOps ops).fileList k).map encodePreview := by
  have hinv := stagedInv_runUploadOps ops
  intro k
  apply (hinv k).1
  unfold pendingFor
  rw [h]
  rfl

def fOk : JsFile := ⟨"a.png", "image/png", [1, 2, 3]⟩

def opsU0 : List UploadOp :=
  [UploadOp.fileChange "acknowledgement" false fOk, UploadOp.previewDone]

theorem validateFileE_fOk : validateFileE fOk = (true, []) := by
  have h1 : strStartsWith fOk.type "image/" = true := by decide
  have h2 : ¬ ((2 : ℚ) ≤ (fOk.size : ℚ) / 1024 / 1024) := by
    norm_num [JsFile.size, fOk]
  simp [validateFileE, beforeUploadE, h1, h2]

theorem runUploadOps_opsU0_pending : (runUploadOps opsU0).pendingPreviews = [] := by
  unfold runUploadOps opsU0
  simp only [List.foldl_cons, List.foldl_nil, applyUploadOp]
  simp only [handleFileChange]
  rw [validateFileE_fOk]
  simp [runPreviewCallback, initialAppState, setKey]

theorem preview_matches_staged_witness :
    (runUploadOps opsU0).pendingPreviews = [] ∧
      getKey (runUploadOps opsU0).imagePreviews "acknowledgement" =
        (getKey (runUploadOps opsU0).fileList "acknowledgement").map encodePreview :=
  ⟨runUploadOps_opsU0_pending,
   preview_matches_staged opsU0 runUploadOps_opsU0_pending "acknowledgement"⟩

/-- JS `s.split(",")` on character lists. -/
def splitComma : List Char → List (List Char)
  | [] => [[]]
  | c :: cs =>
      if c = ',' then [] :: splitComma cs
      else
        match splitComma cs with
        | [] => [[c]]
        | seg :: segs => (c :: seg) :: segs

/-- The line terminators that the JS regex dot `.` never matches: LF, CR,
U+2028 and U+2029. -/
def isLineTerm (c : Char) : Bool :=
  c = Char.ofNat 10 || c = Char.ofNat 13 || c = Char.ofNat 0x2028 ||
    c = Char.ofNat 0x2029

/-- The lazy `(.*?);` tail of the regex at a fixed start: the characters up to
the first ';', or `none` when a line terminator (which `.` cannot match) or the
end of the input is reached before any ';'. -/
def takeUntilSemi : List Char → Option (List Char)
  | [] => none
  | c :: cs =>
      if c = ';' then some []
      else if isLineTerm c then none
      else (takeUntilSemi cs).map (c :: ·)

/-- The capture of the first match of the JS regex `:(.*?);`: the leftmost ':'
from which a ';' is reached without crossing a line terminator, with the
characters in between as the capture; later start positions are tried when an
earlier ':' fails, as the regex engine does. -/
def matchMime : List Char → Option (List Char)
  | [] => none
  | c :: cs =>
      if c = ':' then
        match takeUntilSemi cs with
        | some m => some m
        | none => matchMime cs
      else matchMime cs

/-- ASCII whitespace removed by forgiving-base64 decoding. -/
def isB64Ws (c : Char) : Bool :=
  c = ' ' || c = Char.ofNat 9 || c = Char.ofNat 10 || c = Char.ofNat 12 ||
    c = Char.ofNat 13

/-- The 6-bit value of a base64 alphabet character. -/
def b64Val (c : Char) : Option Nat :=
  if 'A' ≤ c ∧ c ≤ 'Z' then some (c.toNat - 65)
  else if 'a' ≤ c ∧ c ≤ 'z' then some (c.toNat - 97 + 26)
  else if '0' ≤ c ∧ c ≤ '9' then some (c.toNat - 48 + 52)
  else if c = '+' then some 62
  else if c = '/' then some 63
  else none

/-- Reassemble 6-bit groups into bytes, discarding trailing bits. -/
def b64DecodeVals : List Nat → List Nat
  | a :: b :: c :: d :: rest =>
      (a * 4 + b / 16) :: (b % 16 * 16 + c / 4) :: (c % 4 * 64 + d) ::
        b64DecodeVals rest
  | [a, b] => [a * 4 + b / 16]
  | [a, b, c] => [a * 4 + b / 16, b % 16 * 16 + c / 4]
  | [_] => []
  | [] => []

/-- Strip at most two trailing '=' characters. -/
def dropPad (cs : List Char) : List Char :=
  match cs.reverse with
  | '=' :: '=' :: rest => rest.reverse
  | '=' :: rest => rest.reverse
  | _ => cs

/-- WHATWG forgiving-base64 decoding as performed by `atob`: remove ASCII
whitespace, strip trailing padding when the length is a multiple of four, fail
on a remainder of one or on any character outside the alphabet, and otherwise
deliver the decoded bytes (the code units the `charCodeAt` loop of
`base64ToFile` reads back). -/
def atobL (s : List Char) : Option (List Nat) :=
  let cs := s.filter fun c => !isB64Ws c
  let cs := if cs.length % 4 = 0 then dropPad cs else cs
  if cs.length % 4 = 1 then none
  else (cs.mapM b64Val).map b64DecodeVals

/-- The two exceptions `base64ToFile` can throw: the TypeError of reading the
capture group of a failed regex match, and the InvalidCharacterError of
`atob`. -/
inductive JsError where
  | typeError
  | invalidCharacter
deriving DecidableEq

/-- Embedding of `base64ToFile` (src/components/ImageUploader.jsx lines 8-18,
identical in src/unnamed/part_000 lines 19-29): split on ',', extract the MIME
type as the first match of `:(.*?);` on the first segment (a missing match
throws), decode the second segment with `atob` (when the input has no comma,
JS coerces the undefined segment to the string "undefined"), and build a File
from the decoded bytes, the given name and the extracted type. -/
def base64ToFile (b64 : String) (fileName : String) : Except JsError JsFile :=
  let arr := splitComma b64.toList
  match matchMime (arr.headD []) with
  | none => Except.error JsError.typeError
  | some mimeChars =>
      let payload : List Char :=
        match arr[1]? with
        | some p => p
        | none => "undefined".toList
      match atobL payload with
      | none => Except.error JsError.invalidCharacter
      | some bytes => Except.ok ⟨fileName, String.mk mimeChars, bytes⟩

/-- The input shape the claim asserts as the decoder's exact domain,
transcribed from the claim's words: `data:<mime>;base64,<valid base64>`. -/
def specDataUrlShape (s : String) : Bool :=
  match splitComma s.toList with
  | [head, payload] =>
      listStartsWith head "data:".toList &&
        listStartsWith head.reverse ";base64".toList.reverse &&
        (atobL payload).isSome
  | _ => false

theorem splitComma_of_not_mem (l : List Char) (h : ',' ∉ l) :
    splitComma l = [l] := by
  induction l with
  | nil => rfl
  | cons c cs ih =>
      have hc : ¬ c = ',' := fun hc => h (hc ▸ List.mem_cons_self c cs)
      have ih' := ih fun hm => h (List.mem_cons_of_mem c hm)
      unfold splitComma
      rw [if_neg hc, ih']

theorem splitComma_append (l r : List Char) (h : ',' ∉ l) :
    splitComma (l ++ ',' :: r) = l :: splitComma r := by
  induction l with
  | nil => rfl
  | cons c cs ih =>
      have hc : ¬ c = ',' := fun hc => h (hc ▸ List.mem_cons_self c cs)
      have ih' := ih fun hm => h (List.mem_cons_of_mem c hm)
      rw [List.cons_append]
      have heq : splitComma (c :: (cs ++ ',' :: r)) =
          if c = ',' then [] :: splitComma (cs ++ ',' :: r)
          else
            match splitComma (cs ++ ',' :: r) with
            | [] => [[c]]
            | seg :: segs => (c :: seg) :: segs := rfl
      rw [heq, if_neg hc, ih']

theorem takeUntilSemi_append (l r : List Char) (h : ';' ∉ l)
    (hl : ∀ c ∈ l, isLineTerm c = false) :
    takeUntilSemi (l ++ ';' :: r) = some l := by
  induction l with
  | nil => rfl
  | cons c cs ih =>
      have hc : ¬ c = ';' := fun hc => h (hc ▸ List.mem_cons_self c cs)
      have hcl : ¬ isLineTerm c = true := by
        rw [hl c (List.mem_cons_self c cs)]
        exact Bool.false_ne_true
      have ih' := ih (fun hm => h (List.mem_cons_of_mem c hm))
        (fun d hd => hl d (List.mem_cons_of_mem c hd))
      rw [List.cons_append]
      unfold takeUntilSemi
      rw [if_neg hc, if_neg hcl, ih']
      rfl

theorem matchMime_append (pre rest : List Char) (m : List Char)
    (hpre : ':' ∉ pre) (hm : takeUntilSemi rest = some m) :
    matchMime (pre ++ ':' :: rest) = some m := by
  induction pre with
  | nil =>
      rw [List.nil_append]
      unfold matchMime
      rw [if_pos rfl, hm]
  | cons c cs ih =>
      have hc : ¬ c = ':' := fun hc => hpre (hc ▸ List.mem_cons_self c cs)
      have ih' := ih fun hmem => hpre (List.mem_cons_of_mem c hmem)
      rw [List.cons_append]
      unfold matchMime
      rw [if_neg hc]
      exact ih'

theorem base64ToFile_ok (s name : String) (m p : List Char) (bs : List Nat)
    (hm : matchMime ((splitComma s.toList).headD []) = some m)
    (hp : (splitComma s.toList)[1]? = some p)
    (hb : atobL p = some bs) :
    base64ToFile s name = Except.ok ⟨name, String.mk m, bs⟩ := by
  simp only [base64ToFile, hm, hp, hb]

theorem base64ToFile_data (name mime payload : String) (bs : List Nat)
    (h1 : ',' ∉ mime.toList) (h2 : ';' ∉ mime.toList)
    (h2l : ∀ c ∈ mime.toList, isLineTerm c = false)
    (h3 : ',' ∉ payload.toList) (h4 : atobL payload.toList = some bs) :
    base64ToFile ("data:" ++ mime ++ ";base64," ++ payload) name =
      Except.ok ⟨name, mime, bs⟩ := by
  have htl : ("data:" ++ mime ++ ";base64," ++ payload).toList
      = ("data:".toList ++ mime.toList ++ ";base64".toList) ++ ',' :: payload.toList := by
    simp only [String.toList, String.data_append]
    simp
  have hnc : ',' ∉ "data:".toList ++ mime.toList ++ ";base64".toList := by
    intro hmem
    rw [List.append_assoc, List.mem_append, List.mem_append] at hmem
    rcases hmem with hmem | hmem | hmem
    · revert hmem
      decide
    · exact h1 hmem
    · revert hmem
      decide
  have hsplit : splitComma (("data:" ++ mime ++ ";base64," ++ payload).toList)
      = ("data:".toList ++ mime.toList ++ ";base64".toList) :: [payload.toList] := by
    rw [htl, splitComma_append _ _ hnc, splitComma_of_not_mem _ h3]
  have hhead : "data:".toList ++ mime.toList ++ ";base64".toList
      = "data".toList ++ ':' :: (mime.toList ++ ';' :: "base64".toList) := by
    show (['d', 'a', 't', 'a'] ++ [':']) ++ mime.toList ++ (';' :: "base64".toList) = _
    simp [List.append_assoc]
  have hmm : matchMime ("data:".toList ++ mime.toList ++ ";base64".toList)
      = some mime.toList := by
    rw [hhead]
    exact matchMime_append _ _ _ (by decide)
      (takeUntilSemi_append _ _ h2 h2l)
  simp only [base64ToFile, hsplit, List.headD_cons, hmm, List.getElem?_cons_succ,
    List.getElem?_cons_zero, h4]
  rfl

theorem base64ToFile_no_comma (s name : String) (h : ',' ∉ s.toList) :
    ∃ e, base64ToFile s name = Except.error e := by
  have hsp := splitComma_of_not_mem s.toList h
  have hu : atobL "undefined".toList = none := by decide
  cases hmm : matchMime s.toList with
  | none =>
      refine ⟨JsError.typeError, ?_⟩
      simp only [base64ToFile, hsp, List.headD_cons, hmm]
  | some m =>
      refine ⟨JsError.invalidCharacter, ?_⟩
      simp only [base64ToFile, hsp, List.headD_cons, hmm,
        List.getElem?_cons_succ, List.getElem?_nil, hu]

theorem base64ToFile_no_match (s name : String)
    (h : matchMime ((splitComma s.toList).headD []) = none) :
    base64ToFile s name = Except.error JsError.typeError := by
  simp only [base64ToFile, h]

theorem base64ToFile_bad_payload (s name : String) (m p : List Char)
    (hm : matchMime ((splitComma s.toList).headD []) = some m)
    (hp : (splitComma s.toList)[1]? = some p) (ha : atobL p = none) :
    base64ToFile s name = Except.error JsError.invalidCharacter := by
  simp only [base64ToFile, hm, hp, ha]

/-- C10 (amended): the decoder returns a file exactly when the first
comma-split segment has a `:(.*?);` match (the JS dot crossing no line
terminator) and the segment after the first comma decodes as forgiving base64;
the file then carries the decoded bytes and the captured MIME type.  In
particular it accepts every `data:<mime>;base64,<valid base64>` string whose
mime holds no ',', no ';' and no line terminator, returning the declared type
and the decoded payload.  It throws for every input lacking a comma, lacking a
`:<mime>;` match in its first segment, or carrying an invalid base64 payload.
(The accepted inputs are not limited to strings of the `data:<mime>;base64,`
shape; see the counterexample.) -/
theorem base64_decoder_domain :
    (∀ (s name : String) (m p : List Char) (bs : List Nat),
        matchMime ((splitComma s.toList).headD []) = some m →
        (splitComma s.toList)[1]? = some p →
        atobL p = some bs →
        base64ToFile s name = Except.ok ⟨name, String.mk m, bs⟩) ∧
      (∀ (name mime payload : String) (bs : List Nat),
        ',' ∉ mime.toList → ';' ∉ mime.toList →
        (∀ c ∈ mime.toList, isLineTerm c = false) →
        ',' ∉ payload.toList →
        atobL payload.toList = some bs →
        base64ToFile ("data:" ++ mime ++ ";base64," ++ payload) name =
          Except.ok ⟨name, mime, bs⟩) ∧
      (∀ (s name : String), ',' ∉ s.toList →
        ∃ e, base64ToFile s name = Except.error e) ∧
      (∀ (s name : String), matchMime ((splitComma s.toList).headD []) = none →
        base64ToFile s name = Except.error JsError.typeError) ∧
      (∀ (s name : String) (m p : List Char),
        matchMime ((splitComma s.toList).headD []) = some m →
        (splitComma s.toList)[1]? = some p → atobL p = none →
        base64ToFile s name = Except.error JsError.invalidCharacter) :=
  ⟨base64ToFile_ok, base64ToFile_data, base64ToFile_no_comma,
   base64ToFile_no_match, base64ToFile_bad_payload⟩

theorem base64_decoder_domain_witness :
    base64ToFile "x:y;z,QQ==" "g" = Except.ok ⟨"g", String.mk ['y'], [65]⟩ ∧
      base64ToFile ("data:" ++ "image/png" ++ ";base64," ++ "QUJD") "f" =
        Except.ok ⟨"f", "image/png", [65, 66, 67]⟩ ∧
      (∃ e, base64ToFile "nocommahere" "f" = Except.error e) ∧
      base64ToFile "no-match-here,AA" "f" = Except.error JsError.typeError ∧
      base64ToFile "x:y;z,!!!" "f" = Except.error JsError.invalidCharacter :=
  ⟨base64_decoder_domain.1 "x:y;z,QQ==" "g" ['y'] "QQ==".toList [65] (by decide)
      (by decide) (by decide),
   base64_decoder_domain.2.1 "f" "image/png" "QUJD" [65, 66, 67] (by decide)
      (by decide) (by decide) (by decide) (by decide),
   base64_decoder_domain.2.2.1 "nocommahere" "f" (by decide),
   base64_decoder_domain.2.2.2.1 "no-match-here,AA" "f" (by decide),
   base64_decoder_domain.2.2.2.2 "x:y;z,!!!" "f" ['y'] "!!!".toList (by decide)
      (by decide) (by decide)⟩

/-- C10 counterexample: the decoder's accepted inputs are not only the
`data:<mime>;base64,<payload>` strings.  The input "x:y;z,QQ==" is not of that
shape, yet the decoder returns a file of type "y" with the decoded byte 65
instead of throwing. -/
theorem base64_decoder_cex :
    specDataUrlShape "x:y;z,QQ==" = false ∧
      base64ToFile "x:y;z,QQ==" "f.jpg" =
        Except.ok ⟨"f.jpg", "y", [65]⟩ :=
  ⟨rfl, rfl⟩

end Cnic
